import Mathlib

/-!
Verification of the OpenAPI-to-MCP tool compilation pass
(`src/tool-generator.js` exported as part of `src/index.js`, plus the
environment-variable naming rules of `src/config-generator.js`).

The JavaScript source is shallowly embedded: JS objects become Lean
structures whose optional fields are `Option`s (`none` models an absent
key), JS object maps become insertion-ordered association lists, and the
unbounded recursion of `generateSchemabyComponent` is made total with an
explicit fuel parameter (running out of fuel is a distinguished error that
the real code can never produce in finite time; it models divergence).
Thrown JS `TypeError`s (missing component, missing `properties`, missing
`items`) become distinguished error values of an `Except`.
-/

set_option synthInstance.maxSize 4096

namespace McpGen

/-- Raw `items` object of an array schema, as read by the code:
only `$ref` and `type` are consulted. -/
structure JItems where
  ref : Option String := none
  type : Option String := none
deriving DecidableEq, Repr

/-- A raw property (or parameter) schema as consumed by the code:
`$ref`, `type`, `description`, `enum`, `items` are the only keys read. -/
structure JProp where
  ref : Option String := none
  type : Option String := none
  description : Option String := none
  enum : Option (List String) := none
  items : Option JItems := none
deriving DecidableEq, Repr

/-- A schema object appearing either as a named component under
`components.schemas` or as a request-body schema: the code reads
`$ref`, `properties` and `required`. -/
structure ComponentSchema where
  ref : Option String := none
  properties : Option (List (String × JProp)) := none
  required : Option (List String) := none
deriving DecidableEq, Repr

/-- An operation parameter. The JS code checks `'name' in param` and
`'in' in param`; `location` models the `in` key (a Lean keyword). -/
structure Param where
  name : Option String := none
  location : Option String := none
  description : Option String := none
  required : Option Bool := none
  schema : Option JProp := none
deriving DecidableEq, Repr

/-- A media type object: only `schema` is read. -/
structure MediaType where
  schema : Option ComponentSchema := none
deriving DecidableEq, Repr

/-- A request body: `content` maps media-type names to media objects;
the code only looks up `application/json`. -/
structure RequestBody where
  content : Option (List (String × MediaType)) := none
deriving DecidableEq, Repr

/-- An operation object, with exactly the keys the generator reads. -/
structure Operation where
  operationId : Option String := none
  summary : Option String := none
  description : Option String := none
  parameters : Option (List Param) := none
  requestBody : Option RequestBody := none
  security : Option (List (List String)) := none
deriving DecidableEq, Repr

/-- A security scheme declaration (`components.securitySchemes` entry).
`location` models the JSON `in` key. -/
structure SecurityScheme where
  type : String := ""
  name : Option String := none
  scheme : Option String := none
  location : Option String := none
deriving DecidableEq, Repr

/-- The `components` object: `schemas` and `securitySchemes` tables
(absent tables are modelled as empty). -/
structure Components where
  schemas : List (String × ComponentSchema) := []
  securitySchemes : List (String × SecurityScheme) := []
deriving DecidableEq, Repr

/-- A path item is the JS object mapping sibling keys (HTTP verbs,
`parameters`, ...) to operation values; `none` models a null value. -/
abbrev PathItem := List (String × Option Operation)

/-- The OpenAPI document, restricted to the fields the generator reads. -/
structure OpenAPISpec where
  paths : Option (List (String × Option PathItem)) := none
  components : Option Components := none
  security : Option (List (List String)) := none
deriving DecidableEq, Repr

/-- A produced (JSON-ish) schema node: `none` in an `Option` field models
an absent key on the emitted JS object. -/
inductive OutSchema where
  | mk (type : Option String) (description : Option String)
      (enum : Option (List String)) (items : Option OutSchema)
      (properties : Option (List (String × OutSchema)))
      (required : Option (List String)) : OutSchema

def OutSchema.type : OutSchema → Option String
  | .mk t _ _ _ _ _ => t

def OutSchema.description : OutSchema → Option String
  | .mk _ d _ _ _ _ => d

def OutSchema.enum : OutSchema → Option (List String)
  | .mk _ _ e _ _ _ => e

def OutSchema.items : OutSchema → Option OutSchema
  | .mk _ _ _ i _ _ => i

def OutSchema.properties : OutSchema → Option (List (String × OutSchema))
  | .mk _ _ _ _ p _ => p

def OutSchema.required : OutSchema → Option (List String)
  | .mk _ _ _ _ _ r => r

/-- The tool descriptor built per operation (id, name, description,
method, path, inputSchema, security). -/
structure Tool where
  id : String
  name : String
  description : String
  method : String
  path : String
  inputSchema : OutSchema
  security : List (List String)

/-- Errors of the compile pass. In JS all of these are thrown
`TypeError`s / lookup failures that abort `generateTools`;
`outOfFuel` is the fuel-model stand-in for nontermination. -/
inductive GenError where
  | componentNotFound (name : String)
  | missingProperties (name : String)
  | missingItems
  | outOfFuel
deriving DecidableEq, Repr

/-- JS string `||` default: `undefined` and the empty string are falsy. -/
def jsOr (v : Option String) (dflt : String) : String :=
  match v with
  | some s => if s = "" then dflt else s
  | none => dflt

/-- `String.prototype.toUpperCase` restricted to ASCII input. -/
def jsToUpper (s : String) : String :=
  String.mk (s.data.map Char.toUpper)

/-- `String.prototype.toLowerCase` restricted to ASCII input. -/
def jsToLower (s : String) : String :=
  String.mk (s.data.map Char.toLower)

/-- `path.replace(/^\//, '')`: strip one leading slash. -/
def stripLeadingSlash (s : String) : String :=
  match s.data with
  | '/' :: rest => String.mk rest
  | _ => s

/-- `s.replace(/[c]/g, '')` for a single character class: drop every
occurrence of `c`. -/
def removeChar (c : Char) (s : String) : String :=
  String.mk (s.data.filter (fun x => x ≠ c))

/-- A single character under `replace(/[^a-zA-Z0-9-]/g, '-')`. -/
def sanitizeChar (c : Char) : Char :=
  if c.isAlphanum || c = '-' then c else '-'

/-- `s.replace(/[^a-zA-Z0-9-]/g, '-')`. -/
def sanitizeId (s : String) : String :=
  String.mk (s.data.map sanitizeChar)

/-- The `cleanPath` of `generateToolId` (line 181): strip one leading
`/`, delete braces. -/
def cleanPath (path : String) : String :=
  removeChar '\x7d' (removeChar '\x7b' (stripLeadingSlash path))

/-- `generateToolId` (src/index.js tool generator, lines 179-184):
uppercase the verb, join with `-` to the cleaned path, then replace
every character outside `[a-zA-Z0-9-]` by `-`. -/
def generateToolId (method path : String) : String :=
  sanitizeId (jsToUpper method ++ "-" ++ cleanPath path)

/-- `fullPath.split("/")` on the character list. -/
def splitSlash : List Char → List (List Char)
  | [] => [[]]
  | c :: rest =>
    let r := splitSlash rest
    if c = '/' then [] :: r
    else
      match r with
      | h :: t => (c :: h) :: t
      | [] => [[c]]

/-- `getComponentPath` (lines 186-188): `fullPath.split("/").pop()`. -/
def getComponentPath (fullPath : String) : String :=
  String.mk ((splitSlash fullPath.data).getLastD [])

/-- Association-list lookup modelling JS property access `obj[k]`. -/
def lookupStr {α : Type} : List (String × α) → String → Option α
  | [], _ => none
  | (k', v) :: rest, k => if k' = k then some v else lookupStr rest k

/-- JS object insertion `obj[k] = v`: overwrite in place if the key
exists, otherwise append (insertion order preserved). -/
def objInsert {α : Type} (l : List (String × α)) (k : String) (v : α) : List (String × α) :=
  if (lookupStr l k).isSome then
    l.map (fun p => if p.1 = k then (k, v) else p)
  else
    l ++ [(k, v)]

/-- `spec.components?.schemas` with an absent table as `[]`. -/
def schemasListOf (spec : OpenAPISpec) : List (String × ComponentSchema) :=
  match spec.components with
  | some c => c.schemas
  | none => []

/-- `spec.components?.schemas[name]`. -/
def lookupSchema (spec : OpenAPISpec) (name : String) : Option ComponentSchema :=
  lookupStr (schemasListOf spec) name

/-- The `items` handling shared by the resolver's property loop
(lines 207-215) and the parameter loop (lines 292-300): an `array` type
demands `items` (the JS reads `items['$ref']` unguarded, throwing when
`items` is absent — modelled by `missingItems`); a referenced item
schema is resolved, an inline one contributes its `type`; non-array
schemas contribute no `items` key. -/
def resolveItems (resolve : String → Except GenError OutSchema) (propSchema : JProp) :
    Except GenError (Option OutSchema) :=
  if propSchema.type == some "array" then
    match propSchema.items with
    | none => Except.error GenError.missingItems
    | some it =>
      match it.ref with
      | some r => do
        let s ← resolve (getComponentPath r)
        pure (some s)
      | none => pure (some (OutSchema.mk it.type none none none none none))
  else pure none

/-- One iteration of the property loop of `generateSchemabyComponent`
(lines 197-221), abstracted over the recursive resolution function
`resolve`: a `$ref` property is replaced by the resolved component;
otherwise type defaults to `"string"`, description defaults, `items`
via `resolveItems`, and `enum` is carried when present. -/
def resolveProp (resolve : String → Except GenError OutSchema)
    (acc : List (String × OutSchema)) (pair : String × JProp) :
    Except GenError (List (String × OutSchema)) :=
  match pair.2.ref with
  | some r => do
    let s ← resolve (getComponentPath r)
    pure (objInsert acc pair.1 s)
  | none => do
    let itemsOut ← resolveItems resolve pair.2
    pure (objInsert acc pair.1
      (OutSchema.mk (some (jsOr pair.2.type "string"))
        (some (jsOr pair.2.description (pair.1 ++ " property")))
        pair.2.enum itemsOut none none))

/-- `generateSchemabyComponent` (lines 190-229), with fuel making the
unguarded recursion total. Looks the component up (a missing component
is the thrown `TypeError` modelled by `componentNotFound`), folds
`resolveProp` over its declared properties, and carries the component's
`required` list. -/
def generateSchemabyComponent (spec : OpenAPISpec) : Nat → String → Except GenError OutSchema
  | 0, _ => .error .outOfFuel
  | fuel + 1, componentPath =>
    match lookupSchema spec componentPath with
    | none => .error (.componentNotFound componentPath)
    | some component =>
      match component.properties with
      | none => .error (.missingProperties componentPath)
      | some props => do
        let propsOut ← props.foldlM
          (resolveProp (fun name => generateSchemabyComponent spec fuel name)) []
        pure (OutSchema.mk (some "object") none none none (some propsOut)
          (some (component.required.getD [])))

/-- The recognized HTTP verbs (line 253). -/
def validMethods : List String :=
  ["get", "post", "put", "delete", "patch", "options", "head"]

/-- `s.properties` with the always-initialized default `{}`. -/
def propsOf (s : OutSchema) : List (String × OutSchema) :=
  s.properties.getD []

/-- `s.required` with the always-initialized default `[]`. -/
def requiredOf (s : OutSchema) : List String :=
  s.required.getD []

/-- `tool.inputSchema.properties[name] = node`. -/
def setProp (s : OutSchema) (name : String) (node : OutSchema) : OutSchema :=
  .mk s.type s.description s.enum s.items (some (objInsert (propsOf s) name node)) s.required

/-- `tool.inputSchema.required.push(...names)`. -/
def pushRequired (s : OutSchema) (names : List String) : OutSchema :=
  .mk s.type s.description s.enum s.items s.properties (some (requiredOf s ++ names))

/-- One iteration of the parameter loop (lines 282-312): a parameter
with both `name` and `in` present contributes a property (type default
`"string"`, description default, resolved/inline `items` for arrays,
`enum` when present) and, when marked required, its name is appended to
`inputSchema.required`; otherwise it is silently skipped. -/
def addParam (spec : OpenAPISpec) (fuel : Nat) (schema : OutSchema) (param : Param) :
    Except GenError OutSchema :=
  match param.name, param.location with
  | some pname, some _ => do
    let paramSchema := param.schema.getD {}
    let itemsOut ← resolveItems
      (fun name => generateSchemabyComponent spec fuel name) paramSchema
    let node : OutSchema :=
      .mk (some (jsOr paramSchema.type "string"))
        (some (jsOr param.description (pname ++ " parameter")))
        paramSchema.enum itemsOut none none
    let schema1 := setProp schema pname node
    pure (if param.required.getD false then pushRequired schema1 [pname] else schema1)
  | _, _ => pure schema

/-- One iteration of the request-body `properties` loop (lines 324-334):
type default `"string"`, description default, `enum` when present —
and, unlike the parameter loop, no `items` handling at all. -/
def addBodyProp (schema : OutSchema) (propName : String) (propSchema : JProp) : OutSchema :=
  let node : OutSchema :=
    .mk (some (jsOr propSchema.type "string"))
      (some (jsOr propSchema.description (propName ++ " property")))
      propSchema.enum none none none
  setProp schema propName node

/-- The JS object spread `{...old, ...new}` on two emitted schema
objects, with `none` modelling an absent key: present keys of the right
operand win. -/
def spreadMerge (old new : OutSchema) : OutSchema :=
  .mk (new.type <|> old.type) (new.description <|> old.description)
    (new.enum <|> old.enum) (new.items <|> old.items)
    (new.properties <|> old.properties) (new.required <|> old.required)

/-- The initialized empty input schema (lines 272-276) with the
parameter loop folded over it (lines 281-313). -/
def mergeParams (spec : OpenAPISpec) (fuel : Nat) (op : Operation) :
    Except GenError OutSchema :=
  let schema0 : OutSchema := .mk (some "object") none none none (some []) (some [])
  match op.parameters with
  | some params => params.foldlM (addParam spec fuel) schema0
  | none => pure schema0

/-- The request-body merge (lines 316-345): for `post`/`put`/`patch`
with an `application/json` schema, directly declared `properties` are
merged property-by-property with the body's `required` list appended;
a reference-only schema is resolved and spread over the whole
`inputSchema`; in every other case the schema passes through. -/
def mergeRequestBody (spec : OpenAPISpec) (fuel : Nat) (method : String)
    (op : Operation) (schema1 : OutSchema) : Except GenError OutSchema :=
  if ["post", "put", "patch"].contains (jsToLower method) then
    match op.requestBody with
    | some rb =>
      match rb.content.bind (fun c => lookupStr c "application/json") with
      | some mt =>
        match mt.schema with
        | some bodySchema =>
          match bodySchema.properties with
          | some props =>
            let s := props.foldl (fun acc pair => addBodyProp acc pair.1 pair.2) schema1
            pure (if bodySchema.required.isSome then
              pushRequired s (bodySchema.required.getD []) else s)
          | none =>
            match bodySchema.ref with
            | some r => do
              let resolved ← generateSchemabyComponent spec fuel (getComponentPath r)
              pure (spreadMerge schema1 resolved)
            | none => pure schema1
        | none => pure schema1
      | none => pure schema1
    | none => pure schema1
  else pure schema1

/-- The `inputSchema` construction for one operation: parameter merge
then request-body merge. -/
def buildInputSchema (spec : OpenAPISpec) (fuel : Nat) (method : String)
    (op : Operation) : Except GenError OutSchema :=
  mergeParams spec fuel op >>= mergeRequestBody spec fuel method op

/-- The body of the paths/verbs double loop for one operation
(lines 256-348): build id, friendly name (operationId, else summary,
else "VERB path"), description, the merged input schema, and attach
security (operation security, else document security, else empty). -/
def processOperation (spec : OpenAPISpec) (fuel : Nat) (path method : String)
    (op : Operation) : Except GenError Tool :=
  (buildInputSchema spec fuel method op).map (fun inputSchema =>
    { id := generateToolId method path,
      name := jsOr op.operationId (jsOr op.summary (jsToUpper method ++ " " ++ path)),
      description := jsOr op.description
        ("Make a " ++ jsToUpper method ++ " request to " ++ path),
      method := jsToUpper method,
      path := path,
      inputSchema := inputSchema,
      security := (op.security <|> spec.security).getD [] })

/-- The inner verb loop (lines 249-349): the `parameters` sibling key,
null operations and unrecognized verbs are skipped. -/
def processPathItem (spec : OpenAPISpec) (fuel : Nat) (path : String) :
    PathItem → Except GenError (List Tool)
  | [] => .ok []
  | (method, opOpt) :: rest =>
    if method == "parameters" then processPathItem spec fuel path rest
    else
      match opOpt with
      | none => processPathItem spec fuel path rest
      | some op =>
        if validMethods.contains (jsToLower method) then do
          let tool ← processOperation spec fuel path method op
          let ts ← processPathItem spec fuel path rest
          pure (tool :: ts)
        else processPathItem spec fuel path rest

/-- The outer path loop (lines 246-350): null path items are skipped;
a thrown error aborts the whole pass (no partial result survives). -/
def processPaths (spec : OpenAPISpec) (fuel : Nat) :
    List (String × Option PathItem) → Except GenError (List Tool)
  | [] => .ok []
  | (_, none) :: rest => processPaths spec fuel rest
  | (path, some item) :: rest => do
    let ts ← processPathItem spec fuel path item
    let rest' ← processPaths spec fuel rest
    pure (ts ++ rest')

/-- The result triple of `generateTools`. -/
structure GenResult where
  tools : List Tool
  toolMap : List (String × Tool)
  securitySchemes : List (String × SecurityScheme)

/-- `generateTools` (lines 233-354): security schemes are passed
through; without `paths` the result is empty (a warning, not an error);
otherwise every valid operation yields a tool, in declaration order,
and the tool map is keyed by tool id. -/
def generateTools (spec : OpenAPISpec) (fuel : Nat) : Except GenError GenResult :=
  let securitySchemes := match spec.components with
    | some c => c.securitySchemes
    | none => []
  match spec.paths with
  | none => .ok ⟨[], [], securitySchemes⟩
  | some paths => do
    let tools ← processPaths spec fuel paths
    pure ⟨tools, tools.foldl (fun m t => objInsert m t.id t) [], securitySchemes⟩

/-- The environment-variable naming contract of the generated server:
the if/else chain of `generateEnvExample` (src/config-generator.js,
lines 10-20), matching the variables read back by the generated
`executeApiCall` (src/index.js server generator, lines 593-629):
`apiKey` needs `{SCHEME}_{NAME}` (both upper-cased), `http`/`bearer`
needs `{SCHEME}_BEARERTOKEN`, `http`/`basic` needs `{SCHEME}_USERNAME`
and `{SCHEME}_PASSWORD`, anything else (oauth2, openIdConnect) needs
nothing. -/
def envNamesFor (schemeName : String) (scheme : SecurityScheme) : List String :=
  if scheme.type == "apiKey" then
    [jsToUpper schemeName ++ "_" ++ jsToUpper (scheme.name.getD "")]
  else if scheme.type == "http" && scheme.scheme == some "bearer" then
    [jsToUpper schemeName ++ "_BEARERTOKEN"]
  else if scheme.type == "http" && scheme.scheme == some "basic" then
    [jsToUpper schemeName ++ "_USERNAME", jsToUpper schemeName ++ "_PASSWORD"]
  else []

/-! Derived observations and predicates used by the statements below. -/

/-- The keys of a produced schema's `properties` object. -/
def schemaKeys (s : OutSchema) : List String :=
  (propsOf s).map Prod.fst

/-- The invariant claimed for every produced tool: every name in
`inputSchema.required` is a key of `inputSchema.properties`. -/
def RequiredSubset (s : OutSchema) : Prop :=
  ∀ nm ∈ requiredOf s, nm ∈ schemaKeys s

/-- `RequiredSubset` for every tool of a list. -/
def AllRequiredSubset (ts : List Tool) : Prop :=
  ∀ t ∈ ts, RequiredSubset t.inputSchema

/-- A raw schema object is internally well-formed when its own
`required` list only names its own declared properties. -/
def schemaWFB (c : ComponentSchema) : Bool :=
  (c.required.getD []).all (fun nm => ((c.properties.getD []).map Prod.fst).contains nm)

/-- The `application/json` request-body schema of an operation, when
declared. -/
def bodySchemaOfOp (op : Operation) : Option ComponentSchema :=
  (op.requestBody.bind (fun rb => rb.content.bind
    (fun c => lookupStr c "application/json"))).bind (fun mt => mt.schema)

/-- All request-body schemas declared anywhere in the document. -/
def bodySchemasOf (spec : OpenAPISpec) : List ComponentSchema :=
  (spec.paths.getD []).flatMap (fun pi =>
    match pi.2 with
    | some item => item.flatMap (fun e =>
        match e.2 with
        | some op => (bodySchemaOfOp op).toList
        | none => [])
    | none => [])

/-- Document-wide internal well-formedness: every schema component and
every request-body schema has `required` ⊆ its own property names. -/
def specWFB (spec : OpenAPISpec) : Bool :=
  (schemasListOf spec).all (fun pr => schemaWFB pr.2) &&
    (bodySchemasOf spec).all schemaWFB

/-- The verbs of a path item that produce a tool, in declaration order:
the `parameters` key, null values and unrecognized verbs are dropped. -/
def validOpsOfItem (item : PathItem) : List String :=
  item.filterMap (fun e =>
    if e.1 == "parameters" then none
    else
      match e.2 with
      | none => none
      | some _ => if validMethods.contains (jsToLower e.1) then some e.1 else none)

/-- The syntactically valid operations of a path table, as
(path, declared verb) pairs in path-then-verb declaration order. -/
def validOpsOfPaths (l : List (String × Option PathItem)) : List (String × String) :=
  l.flatMap (fun pi =>
    match pi.2 with
    | none => []
    | some item => (validOpsOfItem item).map (fun m => (pi.1, m)))

/-- The syntactically valid operations of a document. -/
def validOps (spec : OpenAPISpec) : List (String × String) :=
  validOpsOfPaths (spec.paths.getD [])

/-- The reference of a reference-only request-body schema (the case in
which `generateTools` resolves the body through the component table). -/
def bodyRefOf (op : Operation) : Option String :=
  match bodySchemaOfOp op with
  | some b =>
    match b.properties with
    | some _ => none
    | none => b.ref
  | none => none

/-- Checks that some reachable `post`/`put`/`patch` operation carries a
reference-only request body whose target component is absent. -/
def hasMissingBodyRefB (spec : OpenAPISpec) : Bool :=
  (spec.paths.getD []).any (fun pi =>
    match pi.2 with
    | some item => item.any (fun e =>
        match e.2 with
        | some op =>
          ["post", "put", "patch"].contains (jsToLower e.1) &&
            (match bodyRefOf op with
             | some r => (lookupSchema spec (getComponentPath r)).isNone
             | none => false)
        | none => false)
    | none => false)

/-- One node of a head-position reference cycle: the component exists
and its first declared property is a reference back into the set `S`. -/
def headCycleCheck (spec : OpenAPISpec) (S : List String) (n : String) : Bool :=
  match lookupSchema spec n with
  | some comp =>
    match comp.properties with
    | some ((_, ps) :: _) =>
      match ps.ref with
      | some r => S.contains (getComponentPath r)
      | none => false
    | _ => false
  | none => false

/-- A nonempty set of component names each of which immediately
references back into the set: a reference cycle that resolution enters
before doing anything else. -/
def headCycleB (spec : OpenAPISpec) (S : List String) : Bool :=
  !S.isEmpty && S.all (headCycleCheck spec S)

/-- One reference edge decreases the rank measure. -/
def refEdgeOk (rank : String → Nat) (bound : Nat) : Option String → Bool
  | some r => decide (rank (getComponentPath r) < bound)
  | none => true

/-- Every reference edge out of a raw property (its own `$ref` and its
`items.$ref`) decreases the rank measure below `bound`. -/
def propAcyclicOk (rank : String → Nat) (bound : Nat) (ps : JProp) : Bool :=
  refEdgeOk rank bound ps.ref &&
    (match ps.items with
     | some it => refEdgeOk rank bound it.ref
     | none => true)

/-- `rank` witnesses acyclicity of the component reference graph: every
reference edge out of every schema component strictly decreases it. -/
def specAcyclicB (spec : OpenAPISpec) (rank : String → Nat) : Bool :=
  (schemasListOf spec).all (fun pr =>
    (pr.2.properties.getD []).all (fun q => propAcyclicOk rank (rank pr.1) q.2))

/-- Termination of schema resolution in the fuel model: past some fuel
bound the result is a fixed value and is not the fuel-exhaustion
marker. -/
def ResolutionTerminates (spec : OpenAPISpec) (n : String) : Prop :=
  ∃ N v, v ≠ Except.error GenError.outOfFuel ∧
    ∀ fuel, N ≤ fuel → generateSchemabyComponent spec fuel n = v

/-- The tool list of a compile result (empty on error). -/
def toolsOf (r : Except GenError GenResult) : List Tool :=
  match r with
  | .ok g => g.tools
  | .error _ => []

/-- Placeholder tool used to totalize list access in closed statements. -/
def defaultTool : Tool :=
  { id := "", name := "", description := "", method := "", path := "",
    inputSchema := .mk none none none none none none, security := [] }

/-- The property node stored under a name in a produced schema. -/
def propOf (s : OutSchema) (name : String) : Option OutSchema :=
  lookupStr (propsOf s) name

/-! Concrete documents used by the individual claims. -/

/-- The operation of the C1 scenario: a required string path parameter
`petId` plus a reference-only `application/json` request body. -/
def opC1 : Operation :=
  { parameters := some [{
      name := some "petId",
      location := some "path",
      required := some true,
      schema := some { type := some "string" } }],
    requestBody := some { content := some [("application/json",
      { schema := some { ref := some "#/components/schemas/Pet" } })] } }

/-- The C1 document: one `post` operation and a `Pet` component with
properties `name`, `tag` and the given `required` list. -/
def docC1 (req : List String) : OpenAPISpec :=
  { paths := some [("/pets/\x7bpetId\x7d", some [("post", some opC1)])],
    components := some { schemas := [("Pet",
      { properties := some [("name", { type := some "string" }),
                            ("tag", { type := some "string" })],
        required := some req })] } }

/-- The tool the compile pass produces for `docC1`. -/
def toolC1 (req : List String) : Tool :=
  { id := "POST-pets-petId",
    name := "POST /pets/\x7bpetId\x7d",
    description := "Make a POST request to /pets/\x7bpetId\x7d",
    method := "POST",
    path := "/pets/\x7bpetId\x7d",
    inputSchema := .mk (some "object") none none none
      (some [("name", .mk (some "string") (some "name property") none none none none),
             ("tag", .mk (some "string") (some "tag property") none none none none)])
      (some req),
    security := [] }

/-- A document with a single `post` operation whose body declares one
direct property `n ↦ ps` and a `required` list `r`. -/
def docC5gen (n : String) (ps : JProp) (r : List String) : OpenAPISpec :=
  { paths := some [("/w", some [("post", some {
      requestBody := some { content := some [("application/json",
        { schema := some { properties := some [(n, ps)], required := some r } })] } })])] }

/-- The tool produced for `docC5gen`: note the body property carries
no `items` key, whatever `ps.items` declares. -/
def toolC5 (n : String) (ps : JProp) (r : List String) : Tool :=
  { id := "POST-w",
    name := "POST /w",
    description := "Make a POST request to /w",
    method := "POST",
    path := "/w",
    inputSchema := .mk (some "object") none none none
      (some [(n, .mk (some (jsOr ps.type "string"))
                     (some (jsOr ps.description (n ++ " property")))
                     ps.enum none none none)])
      (some r),
    security := [] }

/-- A `get` operation with an array-typed parameter that omits `items`. -/
def docC9a : OpenAPISpec :=
  { paths := some [("/q", some [("get", some {
      parameters := some [{
        name := some "q",
        location := some "query",
        schema := some { type := some "array" } }] })])] }

/-- A `post` operation whose body resolves a component with an
array-typed property that omits `items`. -/
def docC9b : OpenAPISpec :=
  { paths := some [("/w", some [("post", some {
      requestBody := some { content := some [("application/json",
        { schema := some { ref := some "#/components/schemas/C" } })] } })])],
    components := some { schemas := [("C",
      { properties := some [("a", { type := some "array" })] })] } }

/-- A document whose body schema declares property `a` but requires
`zzz`: the produced tool's `required` names a missing property. -/
def docC3bad : OpenAPISpec :=
  { paths := some [("/w", some [("post", some {
      requestBody := some { content := some [("application/json",
        { schema := some { properties := some [("a", { type := some "string" })],
                           required := some ["zzz"] } })] } })])] }

/-- A well-formed document used to witness the `required`-subset
theorem: parameter plus body properties with honest `required` lists. -/
def docC3good : OpenAPISpec :=
  { paths := some [("/pets/\x7bpetId\x7d", some [("post", some opC1)])],
    components := some { schemas := [("Pet",
      { properties := some [("name", { type := some "string" }),
                            ("tag", { type := some "string" })],
        required := some ["name"] })] } }

/-- One syntactically valid operation (recognized verb, no `$ref` at
all) that still crashes the pass: an array parameter without `items`. -/
def docC4bad : OpenAPISpec := docC9a

/-- A document with several paths and verbs, unrecognized keys and a
`parameters` sibling, used to witness the count/order theorem. -/
def docC4good : OpenAPISpec :=
  { paths := some [
      ("/a", some [("get", some {}), ("x-ext", some {}), ("delete", some {})]),
      ("/b", none),
      ("/c", some [("parameters", some {}), ("put", some {})])] }

/-- A document whose single operation's request body references a
component that is absent from the (empty) component table. -/
def docC6 : OpenAPISpec :=
  { paths := some [("/w", some [("post", some {
      requestBody := some { content := some [("application/json",
        { schema := some { ref := some "#/components/schemas/Missing" } })] } })])] }

/-- A component that directly references itself as its first (only)
property: resolution never terminates. -/
def docCyc : OpenAPISpec :=
  { components := some { schemas := [("A",
      { properties := some [("self", { ref := some "A" })] })] } }

/-- An acyclic two-component chain used to witness termination. -/
def docAcyclic : OpenAPISpec :=
  { components := some { schemas := [
      ("Pet", { properties := some [("owner", { ref := some "Owner" })] }),
      ("Owner", { properties := some [("name", { type := some "string" })] })] } }

/-- A rank witnessing acyclicity of `docAcyclic`. -/
def rankAcyclic (n : String) : Nat :=
  if n = "Pet" then 1 else 0

/-- A component that references itself, but only after an earlier
property whose reference target is missing: resolution terminates with
a lookup error despite the self-reference. -/
def docCycBad : OpenAPISpec :=
  { components := some { schemas := [("A",
      { properties := some [("bad", { ref := some "Missing" }),
                            ("self", { ref := some "A" })] })] } }

/-! Generic helper lemmas. -/

theorem except_bind_ok {α β : Type} {c : Except GenError α} {f : α → Except GenError β} {b : β} :
    c >>= f = .ok b ↔ ∃ a, c = .ok a ∧ f a = .ok b := by
  cases c <;> simp [Bind.bind, Except.bind]

theorem except_map_ok {α β : Type} {c : Except GenError α} {f : α → β} {b : β} :
    Except.map f c = .ok b ↔ ∃ a, c = .ok a ∧ f a = b := by
  cases c <;> simp [Except.map]

theorem string_data_append (a b : String) : (a ++ b).data = a.data ++ b.data := by
  cases a; cases b; rfl

theorem string_mk_data (s : String) : String.mk s.data = s := by
  cases s; rfl

theorem lookupStr_mem {α : Type} {l : List (String × α)} {k : String} {v : α}
    (h : lookupStr l k = some v) : (k, v) ∈ l := by
  induction l with
  | nil => simp [lookupStr] at h
  | cons hd tl ih =>
    obtain ⟨k', v'⟩ := hd
    by_cases hk : k' = k
    · subst hk
      simp [lookupStr] at h
      subst h
      exact List.mem_cons_self _ _
    · simp [lookupStr, hk] at h
      exact List.mem_cons_of_mem _ (ih h)

theorem lookupStr_isSome_mem_keys {α : Type} {l : List (String × α)} {k : String}
    (h : (lookupStr l k).isSome = true) : k ∈ l.map Prod.fst := by
  obtain ⟨v, hv⟩ := Option.isSome_iff_exists.mp h
  exact List.mem_map.mpr ⟨(k, v), lookupStr_mem hv, rfl⟩

theorem objInsert_keys {α : Type} (l : List (String × α)) (k : String) (v : α) :
    (objInsert l k v).map Prod.fst =
      if (lookupStr l k).isSome then l.map Prod.fst else l.map Prod.fst ++ [k] := by
  unfold objInsert
  by_cases hs : (lookupStr l k).isSome
  · simp only [hs, if_true]
    rw [List.map_map]
    refine List.map_congr_left ?_
    intro p _
    by_cases hpk : p.1 = k <;> simp [Function.comp, hpk]
  · simp [hs]

theorem objInsert_self_mem_keys {α : Type} (l : List (String × α)) (k : String) (v : α) :
    k ∈ (objInsert l k v).map Prod.fst := by
  rw [objInsert_keys]
  by_cases hs : (lookupStr l k).isSome
  · simpa [hs] using lookupStr_isSome_mem_keys hs
  · simp [hs]

theorem objInsert_mem_keys_of_mem {α : Type} {l : List (String × α)} {nm : String}
    (k : String) (v : α) (h : nm ∈ l.map Prod.fst) :
    nm ∈ (objInsert l k v).map Prod.fst := by
  rw [objInsert_keys]
  by_cases hs : (lookupStr l k).isSome <;> simp [hs, h]

/-! Claim C10: reference resolution keys on the last `/`-separated
segment of the `$ref` string. -/

theorem splitSlash_ne_nil (l : List Char) : splitSlash l ≠ [] := by
  induction l with
  | nil => simp [splitSlash]
  | cons c rest ih =>
    by_cases hc : c = '/'
    · simp [splitSlash, hc]
    · cases hr : splitSlash rest with
      | nil => exact absurd hr ih
      | cons h t => simp [splitSlash, hc, hr]

theorem splitSlash_length_two_of_mem {l : List Char} (h : '/' ∈ l) :
    2 ≤ (splitSlash l).length := by
  induction l with
  | nil => simp at h
  | cons c rest ih =>
    by_cases hc : c = '/'
    · have := List.length_pos.mpr (splitSlash_ne_nil rest)
      simp [splitSlash, hc]
      omega
    · have hmem : '/' ∈ rest := by
        rcases List.mem_cons.mp h with h1 | h1
        · exact absurd h1.symm hc
        · exact h1
      cases hr : splitSlash rest with
      | nil => exact absurd hr (splitSlash_ne_nil rest)
      | cons hd t =>
        have := ih hmem
        rw [hr] at this
        simp at this
        simp [splitSlash, hc, hr]
        omega

theorem getLastD_cons_of_ne_nil {α : Type} (a : α) {l : List α} (h : l ≠ []) (d : α) :
    (a :: l).getLastD d = l.getLastD d := by
  cases l with
  | nil => exact absurd rfl h
  | cons x xs => simp only [List.getLastD_cons]

theorem getLastD_splitSlash_append (l1 l2 : List Char) :
    (splitSlash (l1 ++ '/' :: l2)).getLastD [] = (splitSlash l2).getLastD [] := by
  induction l1 with
  | nil =>
    rw [show splitSlash ([] ++ '/' :: l2) = [] :: splitSlash l2 from by simp [splitSlash]]
    exact getLastD_cons_of_ne_nil _ (splitSlash_ne_nil l2) _
  | cons c rest ih =>
    by_cases hc : c = '/'
    · subst hc
      rw [show splitSlash (('/' :: rest) ++ '/' :: l2) = [] :: splitSlash (rest ++ '/' :: l2)
          from by simp [splitSlash]]
      rw [getLastD_cons_of_ne_nil _ (splitSlash_ne_nil _) _]
      exact ih
    · cases hr : splitSlash (rest ++ '/' :: l2) with
      | nil => exact absurd hr (splitSlash_ne_nil _)
      | cons h t =>
        have ht : t ≠ [] := by
          have h2 : 2 ≤ (splitSlash (rest ++ '/' :: l2)).length :=
            splitSlash_length_two_of_mem (by simp)
          rw [hr] at h2
          simp at h2
          exact List.ne_nil_of_length_pos (by omega)
        have hgoal : splitSlash ((c :: rest) ++ '/' :: l2) = (c :: h) :: t := by
          simp [splitSlash, hc, hr]
        rw [hgoal, getLastD_cons_of_ne_nil _ ht _]
        rw [hr, getLastD_cons_of_ne_nil _ ht _] at ih
        exact ih

theorem splitSlash_no_slash {l : List Char} (h : '/' ∉ l) : splitSlash l = [l] := by
  induction l with
  | nil => rfl
  | cons c rest ih =>
    have hc : c ≠ '/' := fun hh => h (hh ▸ List.mem_cons_self c rest)
    have hr := ih (fun hm => h (List.mem_cons_of_mem _ hm))
    simp [splitSlash, hc, hr]

/-- Claim C10: resolution keys on only the final `/`-separated segment
of the `$ref` string: resolving two references with equal last segments
looks up (and resolves) the same component; a reference of the shape
`prefix/name` (for a slash-free `name`) resolves `name` regardless of
the prefix, so `#/components/schemas/Pet`, `#/definitions/Pet` and
`Pet` all key on `Pet`. -/
theorem claim10_last_segment :
    (∀ (spec : OpenAPISpec) (fuel : Nat) (r1 r2 : String),
      getComponentPath r1 = getComponentPath r2 →
        generateSchemabyComponent spec fuel (getComponentPath r1) =
          generateSchemabyComponent spec fuel (getComponentPath r2)) ∧
    (∀ pre name : String, '/' ∉ name.data →
      getComponentPath (pre ++ "/" ++ name) = name) ∧
    getComponentPath "#/components/schemas/Pet" = "Pet" ∧
    getComponentPath "#/definitions/Pet" = "Pet" ∧
    getComponentPath "Pet" = "Pet" := by
  refine ⟨fun spec fuel r1 r2 h => by rw [h], fun pre name h => ?_,
    by decide, by decide, by decide⟩
  unfold getComponentPath
  have hdata : (pre ++ "/" ++ name).data = pre.data ++ '/' :: name.data := by
    rw [string_data_append, string_data_append]
    simp
  rw [hdata, getLastD_splitSlash_append, splitSlash_no_slash h]
  exact string_mk_data name

/-- Witness for C10 at concrete references and a concrete document. -/
theorem claim10_witness :
    generateSchemabyComponent (docC1 []) 2 (getComponentPath "#/definitions/Pet") =
      generateSchemabyComponent (docC1 []) 2 (getComponentPath "Pet") ∧
    getComponentPath ("#/components/schemas" ++ "/" ++ "Pet") = "Pet" :=
  ⟨claim10_last_segment.1 (docC1 []) 2 "#/definitions/Pet" "Pet" (by decide),
   claim10_last_segment.2.1 "#/components/schemas" "Pet" (by decide)⟩

/-! Claim C2: tool-identifier derivation. -/

theorem takeWhile_append_dash (l1 t : List Char) (h : ∀ c ∈ l1, (c != '-') = true) :
    (l1 ++ '-' :: t).takeWhile (fun c => c != '-') = l1 := by
  induction l1 with
  | nil => simp [List.takeWhile_cons]
  | cons c cs ih =>
    have hc := h c (List.mem_cons_self c cs)
    have hrest : ∀ x ∈ cs, (x != '-') = true := fun x hx => h x (List.mem_cons_of_mem _ hx)
    simp [List.takeWhile_cons, hc, ih hrest]

theorem generateToolId_data (v p : String) :
    (generateToolId v p).data =
      (jsToUpper v).data.map sanitizeChar ++ '-' :: (cleanPath p).data.map sanitizeChar := by
  unfold generateToolId sanitizeId
  show ((jsToUpper v ++ "-" ++ cleanPath p).data.map sanitizeChar) = _
  rw [string_data_append, string_data_append]
  simp [sanitizeChar]

theorem toolId_ne_of_upper_ne (v1 v2 p1 p2 : String)
    (h1 : ∀ c ∈ (jsToUpper v1).data, c.isAlphanum = true)
    (h2 : ∀ c ∈ (jsToUpper v2).data, c.isAlphanum = true)
    (hne : jsToUpper v1 ≠ jsToUpper v2) :
    generateToolId v1 p1 ≠ generateToolId v2 p2 := by
  intro heq
  have hd := congrArg String.data heq
  rw [generateToolId_data, generateToolId_data] at hd
  have hU1 : (jsToUpper v1).data.map sanitizeChar = (jsToUpper v1).data := by
    have hcongr : ∀ c ∈ (jsToUpper v1).data, sanitizeChar c = id c :=
      fun c hc => by simp [sanitizeChar, h1 c hc]
    rw [List.map_congr_left hcongr, List.map_id]
  have hU2 : (jsToUpper v2).data.map sanitizeChar = (jsToUpper v2).data := by
    have hcongr : ∀ c ∈ (jsToUpper v2).data, sanitizeChar c = id c :=
      fun c hc => by simp [sanitizeChar, h2 c hc]
    rw [List.map_congr_left hcongr, List.map_id]
  rw [hU1, hU2] at hd
  have hdash1 : ∀ c ∈ (jsToUpper v1).data, (c != '-') = true := by
    intro c hc
    have ha := h1 c hc
    simp only [bne_iff_ne, ne_eq]
    intro hcc
    rw [hcc] at ha
    exact absurd ha (by decide)
  have hdash2 : ∀ c ∈ (jsToUpper v2).data, (c != '-') = true := by
    intro c hc
    have ha := h2 c hc
    simp only [bne_iff_ne, ne_eq]
    intro hcc
    rw [hcc] at ha
    exact absurd ha (by decide)
  have htw := congrArg (List.takeWhile (fun c => c != '-')) hd
  rw [takeWhile_append_dash _ _ hdash1, takeWhile_append_dash _ _ hdash2] at htw
  exact hne (by rw [← string_mk_data (jsToUpper v1), ← string_mk_data (jsToUpper v2), htw])

/-- Claim C2 (amended): the identifier derivation is a pure function of
(verb, path) and distinguishes distinct recognized verbs (the verb is
recoverable as the id's segment before the first `-`), but it is NOT
injective in the path component: distinct paths can clean to the same
id, so only verb-injectivity holds. -/
theorem claim2_amended (v1 v2 p1 p2 : String)
    (h1 : v1 ∈ validMethods) (h2 : v2 ∈ validMethods) (hne : v1 ≠ v2) :
    generateToolId v1 p1 ≠ generateToolId v2 p2 := by
  fin_cases h1 <;> fin_cases h2 <;> first
    | exact absurd rfl hne
    | exact toolId_ne_of_upper_ne _ _ _ _ (by decide) (by decide) (by decide)

/-- Counterexample to C2 as stated: the distinct paths `/ab` and
`/{ab}` yield the same tool id `GET-ab` under the same verb, so the
derivation is not injective over (verb, path) pairs. -/
theorem claim2_counterexample :
    generateToolId "get" "/ab" = "GET-ab" ∧
    generateToolId "get" "/\x7bab\x7d" = "GET-ab" ∧
    ("/ab" : String) ≠ "/\x7bab\x7d" := by
  decide

/-- Witness for C2 (amended) at concrete verbs and paths. -/
theorem claim2_witness :
    generateToolId "get" "/pets" ≠ generateToolId "delete" "/pets" :=
  claim2_amended "get" "delete" "/pets" "/pets" (by decide) (by decide) (by decide)

/-! Claims C1, C5, C8, C9. -/

/-- Claim C1 (amended): for the C1 scenario (required string path
parameter `petId` merged first, then a reference-only
`application/json` body resolving `Pet` with properties
`name`, `tag` and required list `req`), the compiled tool's
`inputSchema` is exactly the resolved `Pet` schema: the JS spread
`{...inputSchema, ...resolved}` overwrites the `type`, `properties` and
`required` keys wholesale, so the final schema has exactly `Pet`'s
properties and required list and the earlier `petId` property is NOT
preserved. -/
theorem claim1_amended (req : List String) :
    generateTools (docC1 req) 2 =
      .ok ⟨[toolC1 req], [("POST-pets-petId", toolC1 req)], []⟩ := rfl

/-- Counterexample to C1 as stated: in the produced tool the
`inputSchema.properties` keys are exactly `name`, `tag` — the
pre-existing `petId` property from the parameter merge is NOT
preserved. -/
theorem claim1_counterexample :
    schemaKeys ((toolsOf (generateTools (docC1 ["name"]) 2)).headD defaultTool).inputSchema
      = ["name", "tag"] ∧
    "petId" ∉
      schemaKeys ((toolsOf (generateTools (docC1 ["name"]) 2)).headD defaultTool).inputSchema := by
  decide

/-- Claim C5 (amended): a request-body schema with directly declared
properties merges each property with type defaulting to `"string"`,
description defaulting to `"<name> property"` and `enum` carried when
present, and appends the body's `required` list — but, unlike the
parameter merge (c), array-typed body properties get NO `items` key
(the body branch has no items handling). -/
theorem claim5_amended (n : String) (ps : JProp) (r : List String) :
    generateTools (docC5gen n ps r) 2 =
      .ok ⟨[toolC5 n ps r], [("POST-w", toolC5 n ps r)], []⟩ := rfl

/-- Counterexample to C5 as stated: a body property declared as
`type: array` with an inline `items` schema is compiled to a property
node with NO `items` key (`items.isNone`), contradicting the claimed
parameter-merge-like items handling. -/
theorem claim5_counterexample :
    (propOf ((toolsOf (generateTools
        (docC5gen "arr" { type := some "array", items := some { type := some "string" } } [])
        2)).headD defaultTool).inputSchema "arr").map
      (fun node => (node.type, node.items.isNone)) = some (some "array", true) := by
  decide

/-- Claim C8: the environment-variable naming derivation:
`basicAuth`/basic requires exactly `BASICAUTH_USERNAME`,
`BASICAUTH_PASSWORD` in that order; apiKey scheme `my_api_key` with key
name `api_key` requires exactly `MY_API_KEY_API_KEY`; an http/bearer
scheme named `S` requires `S` upper-cased followed by `_BEARERTOKEN`;
oauth2 and openIdConnect schemes require no variables. -/
theorem claim8_env_naming :
    envNamesFor "basicAuth" { type := "http", scheme := some "basic" } =
      ["BASICAUTH_USERNAME", "BASICAUTH_PASSWORD"] ∧
    envNamesFor "my_api_key"
        { type := "apiKey", name := some "api_key", location := some "header" } =
      ["MY_API_KEY_API_KEY"] ∧
    (∀ s : String, envNamesFor s { type := "http", scheme := some "bearer" } =
      [jsToUpper s ++ "_BEARERTOKEN"]) ∧
    (∀ (s : String) (nm sch loc : Option String),
      envNamesFor s { type := "oauth2", name := nm, scheme := sch, location := loc } = []) ∧
    (∀ (s : String) (nm sch loc : Option String),
      envNamesFor s { type := "openIdConnect", name := nm, scheme := sch, location := loc } = []) :=
  ⟨by decide, by decide, fun _ => rfl, fun _ _ _ _ => rfl, fun _ _ _ _ => rfl⟩

/-- Claim C9: a syntactically valid operation with an array-typed
parameter (or a resolved component property) that omits `items` crashes
the whole compile pass — the unguarded `items` access is reachable, the
parameter is neither skipped nor defaulted, and no output is
produced. -/
theorem claim9_missing_items_crash :
    generateTools docC9a 3 = .error .missingItems ∧
    generateTools docC9b 3 = .error .missingItems :=
  ⟨rfl, rfl⟩

/-! Claims C4 and C6. -/


theorem processOperation_ok_fields {spec : OpenAPISpec} {fuel : Nat}
    {path method : String} {op : Operation} {t : Tool}
    (h : processOperation spec fuel path method op = .ok t) :
    t.path = path ∧ t.method = jsToUpper method := by
  unfold processOperation at h
  obtain ⟨s, _, ht⟩ := except_map_ok.mp h
  rw [← ht]
  exact ⟨rfl, rfl⟩

theorem processPathItem_ok_map {spec : OpenAPISpec} {fuel : Nat} {p : String} :
    ∀ {item : PathItem} {ts : List Tool},
    processPathItem spec fuel p item = .ok ts →
    ts.map (fun t => (t.path, t.method)) =
      (validOpsOfItem item).map (fun m => (p, jsToUpper m)) := by
  intro item
  induction item with
  | nil =>
    intro ts h
    unfold processPathItem at h
    injection h with h
    rw [← h]
    rfl
  | cons e rest ih =>
    intro ts h
    obtain ⟨method, opOpt⟩ := e
    by_cases hpar : method = "parameters"
    · subst hpar
      rw [show processPathItem spec fuel p (("parameters", opOpt) :: rest) =
          processPathItem spec fuel p rest from by simp only [processPathItem]; rfl] at h
      rw [ih h]
      simp [validOpsOfItem]
    · have hparB : (method == "parameters") = false := by simpa using hpar
      cases opOpt with
      | none =>
        rw [show processPathItem spec fuel p ((method, none) :: rest) =
            processPathItem spec fuel p rest from by
          simp only [processPathItem, hparB, Bool.false_eq_true, if_false]] at h
        rw [ih h]
        simp [validOpsOfItem, hpar]
      | some op =>
        by_cases hvm : jsToLower method ∈ validMethods
        · have hvmB : validMethods.contains (jsToLower method) = true := by simpa using hvm
          rw [show processPathItem spec fuel p ((method, some op) :: rest) =
              (do
                let tool ← processOperation spec fuel p method op
                let ts2 ← processPathItem spec fuel p rest
                pure (tool :: ts2)) from by
            simp only [processPathItem, hparB, Bool.false_eq_true, if_false, hvmB, if_true]] at h
          obtain ⟨tool, h1, h2⟩ := except_bind_ok.mp h
          obtain ⟨ts2, h3, h4⟩ := except_bind_ok.mp h2
          have h4' : tool :: ts2 = ts := by
            simpa [pure, Except.pure] using h4
          rw [← h4']
          obtain ⟨hp, hm⟩ := processOperation_ok_fields h1
          simp [validOpsOfItem, hpar, hvm, hp, hm, ih h3]
        · have hvmB : validMethods.contains (jsToLower method) = false := by simpa using hvm
          rw [show processPathItem spec fuel p ((method, some op) :: rest) =
              processPathItem spec fuel p rest from by
            simp only [processPathItem, hparB, Bool.false_eq_true, if_false, hvmB]] at h
          rw [ih h]
          simp [validOpsOfItem, hpar, hvm]

theorem processPaths_ok_map {spec : OpenAPISpec} {fuel : Nat} :
    ∀ {l : List (String × Option PathItem)} {ts : List Tool},
    processPaths spec fuel l = .ok ts →
    ts.map (fun t => (t.path, t.method)) =
      (validOpsOfPaths l).map (fun pm => (pm.1, jsToUpper pm.2)) := by
  intro l
  induction l with
  | nil =>
    intro ts h
    unfold processPaths at h
    injection h with h
    rw [← h]
    rfl
  | cons e rest ih =>
    intro ts h
    obtain ⟨path, itemOpt⟩ := e
    cases itemOpt with
    | none =>
      rw [show processPaths spec fuel ((path, none) :: rest) = processPaths spec fuel rest
          from by simp only [processPaths]] at h
      rw [ih h]
      simp [validOpsOfPaths]
    | some item =>
      rw [show processPaths spec fuel ((path, some item) :: rest) =
          (do
            let ts1 ← processPathItem spec fuel path item
            let ts2 ← processPaths spec fuel rest
            pure (ts1 ++ ts2)) from by simp only [processPaths]] at h
      obtain ⟨ts1, h1, h2⟩ := except_bind_ok.mp h
      obtain ⟨ts2, h3, h4⟩ := except_bind_ok.mp h2
      have h4' : ts1 ++ ts2 = ts := by simpa [pure, Except.pure] using h4
      rw [← h4']
      have hmap1 := processPathItem_ok_map h1
      have hmap2 := ih h3
      simp [validOpsOfPaths, List.map_append, hmap1, hmap2]

/-- Claim C4 (amended): whenever the compile pass succeeds, it returns
exactly one ToolDescriptor per syntactically valid operation
(recognized verb, non-null value, not the `parameters` sibling key), in
path-then-verb declaration order, each tool carrying that operation's
path and upper-cased verb; other keys contribute no tool. (As stated
the claim is false: a valid operation can still crash the whole pass,
e.g. an array parameter without `items`, returning no tool list at
all.) -/
theorem claim4_amended (spec : OpenAPISpec) (fuel : Nat) (res : GenResult)
    (h : generateTools spec fuel = .ok res) :
    res.tools.map (fun t => (t.path, t.method)) =
      (validOps spec).map (fun pm => (pm.1, jsToUpper pm.2)) := by
  unfold generateTools at h
  cases hp : spec.paths with
  | none =>
    rw [hp] at h
    injection h with h
    rw [← h]
    simp [validOps, validOpsOfPaths, hp]
  | some paths =>
    rw [hp] at h
    obtain ⟨tools, h1, h2⟩ := except_bind_ok.mp h
    simp only [pure, Except.pure] at h2
    injection h2 with h2
    rw [← h2]
    simpa [validOps, hp] using processPaths_ok_map h1

/-- Counterexample to C4 as stated: `docC4bad` has exactly one
syntactically valid operation (verb `get`, no `$ref` anywhere, so all
refs are vacuously resolvable), yet compile returns an error and no
tool list of length 1. -/
theorem claim4_counterexample :
    (validOps docC4bad).length = 1 ∧ generateTools docC4bad 3 = .error .missingItems :=
  ⟨by decide, rfl⟩

/-- Witness for C4 (amended) on a concrete multi-path document with
unrecognized keys, a null path item and a `parameters` sibling. -/
theorem claim4_witness :
    (toolsOf (generateTools docC4good 2)).map (fun t => (t.path, t.method)) =
      (validOps docC4good).map (fun pm => (pm.1, jsToUpper pm.2)) := by
  have hok : (generateTools docC4good 2).isOk = true := rfl
  cases hres : generateTools docC4good 2 with
  | error e => rw [hres] at hok; simp [Except.isOk, Except.toBool] at hok
  | ok res =>
    show res.tools.map (fun t => (t.path, t.method)) = _
    exact claim4_amended docC4good 2 res hres


-- ===== C6 machinery =====

theorem resolver_missing_not_ok {spec : OpenAPISpec} {fuel : Nat} {name : String}
    {s : OutSchema} (hl : lookupSchema spec name = none) :
    generateSchemabyComponent spec fuel name ≠ .ok s := by
  cases fuel with
  | zero => simp [generateSchemabyComponent]
  | succ k => simp [generateSchemabyComponent, hl]

theorem processOperation_ok_body_resolves {spec : OpenAPISpec} {fuel : Nat}
    {p m : String} {op : Operation} {t : Tool} {r : String}
    (h : processOperation spec fuel p m op = .ok t)
    (hm : ["post", "put", "patch"].contains (jsToLower m) = true)
    (hr : bodyRefOf op = some r) :
    ∃ s, generateSchemabyComponent spec fuel (getComponentPath r) = .ok s := by
  unfold processOperation at h
  obtain ⟨s2, hs2, -⟩ := except_map_ok.mp h
  -- invert bodyRefOf
  cases hb : bodySchemaOfOp op with
  | none =>
    simp only [bodyRefOf, hb] at hr
    exact Option.noConfusion hr
  | some b =>
    simp only [bodyRefOf, hb] at hr
    cases hbp : b.properties with
    | some props =>
      simp only [hbp] at hr
      exact Option.noConfusion hr
    | none =>
      simp only [hbp] at hr
      -- hr : b.ref = some r
      -- invert bodySchemaOfOp
      cases hrb : op.requestBody with
      | none => simp [bodySchemaOfOp, hrb] at hb
      | some rb =>
        cases hmt : rb.content.bind (fun c => lookupStr c "application/json") with
        | none => simp [bodySchemaOfOp, hrb, hmt] at hb
        | some mt =>
          have hms : mt.schema = some b := by
            simpa [bodySchemaOfOp, hrb, hmt] using hb
          unfold buildInputSchema at hs2
          obtain ⟨s1, -, hcont⟩ := except_bind_ok.mp hs2
          unfold mergeRequestBody at hcont
          simp only [hm, if_true, hrb, hmt, hms, hbp, hr] at hcont
          obtain ⟨resolved, hres, -⟩ := except_bind_ok.mp hcont
          exact ⟨resolved, hres⟩

theorem processPathItem_ok_all {spec : OpenAPISpec} {fuel : Nat} {p : String} :
    ∀ {item : PathItem} {ts : List Tool},
    processPathItem spec fuel p item = .ok ts →
    ∀ m op, (m, some op) ∈ item → (m == "parameters") = false →
      validMethods.contains (jsToLower m) = true →
      ∃ t, processOperation spec fuel p m op = .ok t := by
  intro item
  induction item with
  | nil =>
    intro ts _ m op hmem
    simp at hmem
  | cons e rest ih =>
    intro ts h m op hmem hmpar hmvm
    obtain ⟨method, opOpt⟩ := e
    by_cases hpar : method = "parameters"
    · subst hpar
      rw [show processPathItem spec fuel p (("parameters", opOpt) :: rest) =
          processPathItem spec fuel p rest from by simp only [processPathItem]; rfl] at h
      rcases List.mem_cons.mp hmem with heq | hmem2
      · injection heq with h1 _
        rw [h1] at hmpar
        simp at hmpar
      · exact ih h m op hmem2 hmpar hmvm
    · have hparB : (method == "parameters") = false := by simpa using hpar
      cases opOpt with
      | none =>
        rw [show processPathItem spec fuel p ((method, none) :: rest) =
            processPathItem spec fuel p rest from by
          simp only [processPathItem, hparB, Bool.false_eq_true, if_false]] at h
        rcases List.mem_cons.mp hmem with heq | hmem2
        · injection heq with _ h2
          simp at h2
        · exact ih h m op hmem2 hmpar hmvm
      | some op2 =>
        by_cases hvm : jsToLower method ∈ validMethods
        · have hvmB : validMethods.contains (jsToLower method) = true := by simpa using hvm
          rw [show processPathItem spec fuel p ((method, some op2) :: rest) =
              (do
                let tool ← processOperation spec fuel p method op2
                let ts2 ← processPathItem spec fuel p rest
                pure (tool :: ts2)) from by
            simp only [processPathItem, hparB, Bool.false_eq_true, if_false, hvmB, if_true]] at h
          obtain ⟨tool, h1, h2⟩ := except_bind_ok.mp h
          obtain ⟨ts2, h3, -⟩ := except_bind_ok.mp h2
          rcases List.mem_cons.mp hmem with heq | hmem2
          · injection heq with ha hb
            injection hb with hb
            rw [← ha, ← hb] at h1
            exact ⟨tool, h1⟩
          · exact ih h3 m op hmem2 hmpar hmvm
        · have hvmB : validMethods.contains (jsToLower method) = false := by simpa using hvm
          rw [show processPathItem spec fuel p ((method, some op2) :: rest) =
              processPathItem spec fuel p rest from by
            simp only [processPathItem, hparB, Bool.false_eq_true, if_false, hvmB]] at h
          rcases List.mem_cons.mp hmem with heq | hmem2
          · injection heq with ha _
            rw [← ha] at hvmB
            rw [hmvm] at hvmB
            exact absurd hvmB (by simp)
          · exact ih h m op hmem2 hmpar hmvm

theorem processPaths_ok_all {spec : OpenAPISpec} {fuel : Nat} :
    ∀ {l : List (String × Option PathItem)} {ts : List Tool},
    processPaths spec fuel l = .ok ts →
    ∀ p item, (p, some item) ∈ l →
    ∀ m op, (m, some op) ∈ item → (m == "parameters") = false →
      validMethods.contains (jsToLower m) = true →
      ∃ t, processOperation spec fuel p m op = .ok t := by
  intro l
  induction l with
  | nil =>
    intro ts _ p item hmem
    simp at hmem
  | cons e rest ih =>
    intro ts h p item hmem m op hmem2 hmpar hmvm
    obtain ⟨path, itemOpt⟩ := e
    cases itemOpt with
    | none =>
      rw [show processPaths spec fuel ((path, none) :: rest) = processPaths spec fuel rest
          from by simp only [processPaths]] at h
      rcases List.mem_cons.mp hmem with heq | hmem3
      · injection heq with _ h2
        simp at h2
      · exact ih h p item hmem3 m op hmem2 hmpar hmvm
    | some item2 =>
      rw [show processPaths spec fuel ((path, some item2) :: rest) =
          (do
            let ts1 ← processPathItem spec fuel path item2
            let ts2 ← processPaths spec fuel rest
            pure (ts1 ++ ts2)) from by simp only [processPaths]] at h
      obtain ⟨ts1, h1, h2⟩ := except_bind_ok.mp h
      obtain ⟨ts2, h3, -⟩ := except_bind_ok.mp h2
      rcases List.mem_cons.mp hmem with heq | hmem3
      · injection heq with ha hb
        injection hb with hb
        subst ha
        subst hb
        exact processPathItem_ok_all h1 m op hmem2 hmpar hmvm
      · exact ih h3 p item hmem3 m op hmem2 hmpar hmvm

/-- Claim C6: a reference-only request body whose `$ref` target is
absent from `components.schemas` is fatal to the whole compile pass: no
partial tool list is returned (the pass never yields `ok`), and the
resolver's failure on a missing component is precisely
`ComponentNotFoundError`. -/
theorem claim6_missing_ref_fatal (spec : OpenAPISpec) (fuel : Nat) :
    (hasMissingBodyRefB spec = true → ∀ res, generateTools spec fuel ≠ .ok res) ∧
    (∀ name k, lookupSchema spec name = none →
      generateSchemabyComponent spec (k + 1) name = .error (.componentNotFound name)) := by
  constructor
  · intro h res hok
    unfold hasMissingBodyRefB at h
    obtain ⟨pi, hpi, hpi2⟩ := List.any_eq_true.mp h
    cases hitem : pi.2 with
    | none => rw [hitem] at hpi2; simp at hpi2
    | some item =>
      rw [hitem] at hpi2
      obtain ⟨e, he, he2⟩ := List.any_eq_true.mp hpi2
      cases hop : e.2 with
      | none => rw [hop] at he2; simp at he2
      | some op =>
        rw [hop] at he2
        simp only [Bool.and_eq_true] at he2
        obtain ⟨hm3, href⟩ := he2
        cases hbr : bodyRefOf op with
        | none => rw [hbr] at href; simp at href
        | some r =>
          rw [hbr] at href
          have hlook : lookupSchema spec (getComponentPath r) = none := by
            simpa using href
          have hcases : jsToLower e.1 = "post" ∨ jsToLower e.1 = "put" ∨
              jsToLower e.1 = "patch" := by
            simpa using hm3
          have hvm : validMethods.contains (jsToLower e.1) = true := by
            rcases hcases with hc | hc | hc <;> simp [validMethods, hc]
          have hpar : (e.1 == "parameters") = false := by
            by_cases hb : e.1 = "parameters"
            · rw [hb] at hcases
              rcases hcases with hc | hc | hc <;> exact absurd hc (by decide)
            · simpa using hb
          unfold generateTools at hok
          cases hp : spec.paths with
          | none =>
            rw [hp] at hpi
            simp at hpi
          | some paths =>
            rw [hp] at hok
            obtain ⟨tools, htools, -⟩ := except_bind_ok.mp hok
            have hmem1 : (pi.1, some item) ∈ paths := by
              rw [hp] at hpi
              simpa [← hitem] using hpi
            have hmem2 : (e.1, some op) ∈ item := by
              simpa [← hop] using he
            obtain ⟨t, hop_ok⟩ :=
              processPaths_ok_all htools pi.1 item hmem1 e.1 op hmem2 hpar hvm
            have hm3' : ["post", "put", "patch"].contains (jsToLower e.1) = true := hm3
            obtain ⟨s, hres⟩ := processOperation_ok_body_resolves hop_ok hm3' hbr
            exact resolver_missing_not_ok hlook hres
  · intro name k hl
    simp [generateSchemabyComponent, hl]

/-- Witness for C6 on a concrete document with a dangling body
reference. -/
theorem claim6_witness :
    (∀ res, generateTools docC6 3 ≠ .ok res) ∧
    generateSchemabyComponent docC6 3 "Missing" = .error (.componentNotFound "Missing") :=
  ⟨(claim6_missing_ref_fatal docC6 3).1 (by decide),
   (claim6_missing_ref_fatal docC6 3).2 "Missing" 2 (by decide)⟩

/-! Claim C3: the required-subset invariant. -/


theorem schemaKeys_setProp (s : OutSchema) (k : String) (v : OutSchema) :
    schemaKeys (setProp s k v) = (objInsert (propsOf s) k v).map Prod.fst := rfl

theorem requiredOf_setProp (s : OutSchema) (k : String) (v : OutSchema) :
    requiredOf (setProp s k v) = requiredOf s := rfl

theorem schemaKeys_pushRequired (s : OutSchema) (l : List String) :
    schemaKeys (pushRequired s l) = schemaKeys s := rfl

theorem requiredOf_pushRequired (s : OutSchema) (l : List String) :
    requiredOf (pushRequired s l) = requiredOf s ++ l := rfl

theorem resolveProp_ok_shape {f : String → Except GenError OutSchema}
    {acc acc2 : List (String × OutSchema)} {q : String × JProp}
    (h : resolveProp f acc q = .ok acc2) : ∃ node, acc2 = objInsert acc q.1 node := by
  unfold resolveProp at h
  cases hr : q.2.ref with
  | some r =>
    rw [hr] at h
    obtain ⟨s, _, hpure⟩ := except_bind_ok.mp h
    refine ⟨s, ?_⟩
    simpa [pure, Except.pure] using hpure.symm
  | none =>
    rw [hr] at h
    obtain ⟨it, _, hpure⟩ := except_bind_ok.mp h
    refine ⟨OutSchema.mk (some (jsOr q.2.type "string"))
      (some (jsOr q.2.description (q.1 ++ " property"))) q.2.enum it none none, ?_⟩
    simpa [pure, Except.pure] using hpure.symm

theorem fold_resolveProp_keys {f : String → Except GenError OutSchema} :
    ∀ {props : List (String × JProp)} {acc out : List (String × OutSchema)},
    props.foldlM (resolveProp f) acc = .ok out →
    (∀ nm ∈ acc.map Prod.fst, nm ∈ out.map Prod.fst) ∧
      (∀ q ∈ props, q.1 ∈ out.map Prod.fst) := by
  intro props
  induction props with
  | nil =>
    intro acc out h
    simp only [List.foldlM_nil] at h
    have : acc = out := by simpa [pure, Except.pure] using h
    subst this
    exact ⟨fun nm hm => hm, by simp⟩
  | cons q rest ih =>
    intro acc out h
    simp only [List.foldlM_cons] at h
    obtain ⟨acc2, h1, h2⟩ := except_bind_ok.mp h
    obtain ⟨node, hnode⟩ := resolveProp_ok_shape h1
    subst hnode
    obtain ⟨hmono, hcover⟩ := ih h2
    constructor
    · intro nm hm
      exact hmono nm (objInsert_mem_keys_of_mem _ _ hm)
    · intro q2 hq2
      rcases List.mem_cons.mp hq2 with heq | hmem
      · subst heq
        exact hmono q2.1 (objInsert_self_mem_keys _ _ _)
      · exact hcover q2 hmem

theorem resolver_ok_shape {spec : OpenAPISpec} {fuel : Nat} {name : String} {out : OutSchema}
    (h : generateSchemabyComponent spec fuel name = .ok out) :
    ∃ comp props propsOut, lookupSchema spec name = some comp ∧
      comp.properties = some props ∧
      out = OutSchema.mk (some "object") none none none (some propsOut)
        (some (comp.required.getD [])) ∧
      ∀ q ∈ props, q.1 ∈ propsOut.map Prod.fst := by
  cases fuel with
  | zero => simp [generateSchemabyComponent] at h
  | succ k =>
    unfold generateSchemabyComponent at h
    cases hl : lookupSchema spec name with
    | none => rw [hl] at h; simp at h
    | some comp =>
      simp only [hl] at h
      cases hp : comp.properties with
      | none => simp only [hp] at h; simp at h
      | some props =>
        simp only [hp] at h
        obtain ⟨propsOut, hfold, hpure⟩ := except_bind_ok.mp h
        have hout : OutSchema.mk (some "object") none none none (some propsOut)
            (some (comp.required.getD [])) = out := by
          simpa [pure, Except.pure] using hpure
        exact ⟨comp, props, propsOut, rfl, hp, hout.symm,
          (fold_resolveProp_keys hfold).2⟩

theorem containsName_mem {l : List String} {nm : String}
    (h : l.contains nm = true) : nm ∈ l := by
  simpa using h

theorem resolver_ok_requiredSubset {spec : OpenAPISpec} {fuel : Nat} {name : String}
    {out : OutSchema}
    (hall : ∀ pr ∈ schemasListOf spec, schemaWFB pr.2 = true)
    (h : generateSchemabyComponent spec fuel name = .ok out) :
    ∃ propsOut reqs, out = OutSchema.mk (some "object") none none none (some propsOut)
      (some reqs) ∧ RequiredSubset out := by
  obtain ⟨comp, props, propsOut, hl, hp, hout, hcover⟩ := resolver_ok_shape h
  have hwf : schemaWFB comp = true := hall (name, comp) (lookupStr_mem hl)
  subst hout
  refine ⟨propsOut, comp.required.getD [], rfl, ?_⟩
  intro nm hnm
  have hnm' : nm ∈ comp.required.getD [] := by
    simpa [requiredOf] using hnm
  have hmem : nm ∈ (comp.properties.getD []).map Prod.fst := by
    have := List.all_eq_true.mp hwf nm hnm'
    exact containsName_mem this
  rw [hp] at hmem
  obtain ⟨q, hq, hqnm⟩ := List.mem_map.mp hmem
  subst hqnm
  show q.1 ∈ schemaKeys _
  simpa [schemaKeys, propsOf] using hcover q hq


theorem addParam_pres {spec : OpenAPISpec} {fuel : Nat} {s s2 : OutSchema} {p : Param}
    (h : addParam spec fuel s p = .ok s2) :
    (∀ nm ∈ schemaKeys s, nm ∈ schemaKeys s2) ∧ (RequiredSubset s → RequiredSubset s2) := by
  unfold addParam at h
  cases hn : p.name with
  | none =>
    rw [hn] at h
    have : s = s2 := by simpa [pure, Except.pure] using h
    subst this
    exact ⟨fun nm hm => hm, fun hs => hs⟩
  | some pname =>
    cases hl : p.location with
    | none =>
      rw [hn, hl] at h
      have : s = s2 := by simpa [pure, Except.pure] using h
      subst this
      exact ⟨fun nm hm => hm, fun hs => hs⟩
    | some loc =>
      simp only [hn, hl] at h
      obtain ⟨it, _, hpure⟩ := except_bind_ok.mp h
      simp only [pure, Except.pure] at hpure
      injection hpure with hpure
      rw [← hpure]
      by_cases hreq : p.required.getD false = true
      · rw [if_pos hreq]
        constructor
        · intro nm hm
          rw [schemaKeys_pushRequired, schemaKeys_setProp]
          exact objInsert_mem_keys_of_mem _ _ hm
        · intro hs nm hnm
          rw [requiredOf_pushRequired, requiredOf_setProp] at hnm
          rw [schemaKeys_pushRequired, schemaKeys_setProp]
          rcases List.mem_append.mp hnm with hold | hnew
          · exact objInsert_mem_keys_of_mem _ _ (hs nm hold)
          · rw [List.mem_singleton.mp hnew]
            exact objInsert_self_mem_keys _ _ _
      · rw [if_neg hreq]
        constructor
        · intro nm hm
          rw [schemaKeys_setProp]
          exact objInsert_mem_keys_of_mem _ _ hm
        · intro hs nm hnm
          rw [requiredOf_setProp] at hnm
          rw [schemaKeys_setProp]
          exact objInsert_mem_keys_of_mem _ _ (hs nm hnm)

theorem foldParams_pres {spec : OpenAPISpec} {fuel : Nat} :
    ∀ {params : List Param} {s s2 : OutSchema},
    params.foldlM (addParam spec fuel) s = .ok s2 →
    (∀ nm ∈ schemaKeys s, nm ∈ schemaKeys s2) ∧ (RequiredSubset s → RequiredSubset s2) := by
  intro params
  induction params with
  | nil =>
    intro s s2 h
    simp only [List.foldlM_nil] at h
    have : s = s2 := by simpa [pure, Except.pure] using h
    subst this
    exact ⟨fun nm hm => hm, fun hs => hs⟩
  | cons p rest ih =>
    intro s s2 h
    simp only [List.foldlM_cons] at h
    obtain ⟨s1, h1, h2⟩ := except_bind_ok.mp h
    obtain ⟨hk1, hr1⟩ := addParam_pres h1
    obtain ⟨hk2, hr2⟩ := ih h2
    exact ⟨fun nm hm => hk2 nm (hk1 nm hm), fun hs => hr2 (hr1 hs)⟩

theorem mergeParams_requiredSubset {spec : OpenAPISpec} {fuel : Nat} {op : Operation}
    {s1 : OutSchema} (h : mergeParams spec fuel op = .ok s1) : RequiredSubset s1 := by
  unfold mergeParams at h
  cases hp : op.parameters with
  | none =>
    rw [hp] at h
    simp only [pure, Except.pure] at h
    injection h with h
    rw [← h]
    intro nm hnm
    simp [requiredOf, OutSchema.required] at hnm
  | some params =>
    rw [hp] at h
    refine (foldParams_pres h).2 ?_
    intro nm hnm
    simp [requiredOf, OutSchema.required] at hnm

theorem foldBodyProps_pres (props : List (String × JProp)) :
    ∀ s : OutSchema,
    (∀ nm ∈ schemaKeys s,
        nm ∈ schemaKeys (props.foldl (fun acc pair => addBodyProp acc pair.1 pair.2) s)) ∧
      (∀ q ∈ props,
        q.1 ∈ schemaKeys (props.foldl (fun acc pair => addBodyProp acc pair.1 pair.2) s)) ∧
      requiredOf (props.foldl (fun acc pair => addBodyProp acc pair.1 pair.2) s) =
        requiredOf s := by
  induction props with
  | nil => exact fun s => ⟨fun nm hm => hm, by simp, rfl⟩
  | cons q rest ih =>
    intro s
    simp only [List.foldl_cons]
    obtain ⟨hk, hc, hr⟩ := ih (addBodyProp s q.1 q.2)
    refine ⟨?_, ?_, ?_⟩
    · intro nm hm
      refine hk nm ?_
      unfold addBodyProp
      rw [schemaKeys_setProp]
      exact objInsert_mem_keys_of_mem _ _ hm
    · intro q2 hq2
      rcases List.mem_cons.mp hq2 with heq | hmem
      · subst heq
        refine hk q2.1 ?_
        unfold addBodyProp
        rw [schemaKeys_setProp]
        exact objInsert_self_mem_keys _ _ _
      · exact hc q2 hmem
    · rw [hr]
      unfold addBodyProp
      rw [requiredOf_setProp]

theorem spreadMerge_requiredSubset {s1 : OutSchema} {t d : Option String}
    {e : Option (List String)} {i : Option OutSchema}
    {l : List (String × OutSchema)} {reqs : List String}
    (hsub : RequiredSubset (OutSchema.mk t d e i (some l) (some reqs))) :
    RequiredSubset (spreadMerge s1 (OutSchema.mk t d e i (some l) (some reqs))) := by
  have h1 : requiredOf (spreadMerge s1 (OutSchema.mk t d e i (some l) (some reqs))) = reqs := by
    simp [spreadMerge, requiredOf, OutSchema.required]
  have h2 : schemaKeys (spreadMerge s1 (OutSchema.mk t d e i (some l) (some reqs))) =
      l.map Prod.fst := by
    simp [spreadMerge, schemaKeys, propsOf, OutSchema.properties]
  have h3 : requiredOf (OutSchema.mk t d e i (some l) (some reqs)) = reqs := by
    simp [requiredOf, OutSchema.required]
  have h4 : schemaKeys (OutSchema.mk t d e i (some l) (some reqs)) = l.map Prod.fst := by
    simp [schemaKeys, propsOf, OutSchema.properties]
  intro nm hnm
  rw [h1] at hnm
  rw [h2]
  have := hsub nm (by rw [h3]; exact hnm)
  rw [h4] at this
  exact this

theorem mergeRequestBody_requiredSubset {spec : OpenAPISpec} {fuel : Nat} {m : String}
    {op : Operation} {s1 s2 : OutSchema}
    (hall : ∀ pr ∈ schemasListOf spec, schemaWFB pr.2 = true)
    (hbody : ∀ b, bodySchemaOfOp op = some b → schemaWFB b = true)
    (hs1 : RequiredSubset s1)
    (h : mergeRequestBody spec fuel m op s1 = .ok s2) : RequiredSubset s2 := by
  unfold mergeRequestBody at h
  by_cases hm : ["post", "put", "patch"].contains (jsToLower m) = true
  case neg =>
    rw [if_neg hm] at h
    have : s1 = s2 := by simpa [pure, Except.pure] using h
    subst this
    exact hs1
  case pos =>
  rw [if_pos hm] at h
  cases hrb : op.requestBody with
  | none =>
    rw [hrb] at h
    have : s1 = s2 := by simpa [pure, Except.pure] using h
    subst this
    exact hs1
  | some rb =>
    simp only [hrb] at h
    cases hmt : rb.content.bind (fun c => lookupStr c "application/json") with
    | none =>
      simp only [hmt] at h
      have : s1 = s2 := by simpa [pure, Except.pure] using h
      subst this
      exact hs1
    | some mt =>
      simp only [hmt] at h
      cases hms : mt.schema with
      | none =>
        simp only [hms] at h
        have : s1 = s2 := by simpa [pure, Except.pure] using h
        subst this
        exact hs1
      | some bodySchema =>
        simp only [hms] at h
        have hbs : bodySchemaOfOp op = some bodySchema := by
          simp [bodySchemaOfOp, hrb, hmt, hms]
        have hwfb : schemaWFB bodySchema = true := hbody bodySchema hbs
        cases hbp : bodySchema.properties with
        | some props =>
          simp only [hbp] at h
          cases hbr : bodySchema.required with
          | none =>
            simp only [hbr, Option.isSome_none, Bool.false_eq_true, if_false] at h
            simp only [pure, Except.pure] at h
            injection h with h
            rw [← h]
            obtain ⟨hk, _, hreq⟩ := foldBodyProps_pres props s1
            intro nm hnm
            rw [hreq] at hnm
            exact hk nm (hs1 nm hnm)
          | some rl =>
            simp only [hbr, Option.isSome_some, if_true, Option.getD_some] at h
            simp only [pure, Except.pure] at h
            injection h with h
            rw [← h]
            obtain ⟨hk, hc, hreq⟩ := foldBodyProps_pres props s1
            intro nm hnm
            rw [requiredOf_pushRequired, hreq] at hnm
            rw [schemaKeys_pushRequired]
            rcases List.mem_append.mp hnm with hold | hnew
            · exact hk nm (hs1 nm hold)
            · have hnew' : nm ∈ (bodySchema.properties.getD []).map Prod.fst := by
                have := List.all_eq_true.mp hwfb nm (by simpa [hbr] using hnew)
                exact containsName_mem this
              rw [hbp] at hnew'
              obtain ⟨q, hq, hqnm⟩ := List.mem_map.mp hnew'
              subst hqnm
              exact hc q hq
        | none =>
          simp only [hbp] at h
          cases hbref : bodySchema.ref with
          | none =>
            simp only [hbref] at h
            have : s1 = s2 := by simpa [pure, Except.pure] using h
            subst this
            exact hs1
          | some r =>
            simp only [hbref] at h
            obtain ⟨resolved, hres, hpure⟩ := except_bind_ok.mp h
            have hsp : spreadMerge s1 resolved = s2 := by simpa [pure, Except.pure] using hpure
            rw [← hsp]
            obtain ⟨propsOut, reqs, hshape, hsub⟩ := resolver_ok_requiredSubset hall hres
            subst hshape
            exact spreadMerge_requiredSubset hsub

theorem processOperation_requiredSubset {spec : OpenAPISpec} {fuel : Nat}
    {p m : String} {op : Operation} {t : Tool}
    (hall : ∀ pr ∈ schemasListOf spec, schemaWFB pr.2 = true)
    (hbody : ∀ b, bodySchemaOfOp op = some b → schemaWFB b = true)
    (h : processOperation spec fuel p m op = .ok t) :
    RequiredSubset t.inputSchema := by
  unfold processOperation at h
  obtain ⟨s2, hs2, ht⟩ := except_map_ok.mp h
  unfold buildInputSchema at hs2
  obtain ⟨s1, h1, h2⟩ := except_bind_ok.mp hs2
  have hsub := mergeRequestBody_requiredSubset hall hbody (mergeParams_requiredSubset h1) h2
  rw [← ht]
  exact hsub


theorem bodySchema_mem {spec : OpenAPISpec} {paths : List (String × Option PathItem)}
    {p : String} {item : PathItem} {m : String} {op : Operation} {b : ComponentSchema}
    (hp : spec.paths = some paths) (hmem1 : (p, some item) ∈ paths)
    (hmem2 : (m, some op) ∈ item) (hb : bodySchemaOfOp op = some b) :
    b ∈ bodySchemasOf spec := by
  unfold bodySchemasOf
  rw [hp]
  simp only [Option.getD_some]
  refine List.mem_flatMap.mpr ⟨(p, some item), hmem1, ?_⟩
  simp only []
  refine List.mem_flatMap.mpr ⟨(m, some op), hmem2, ?_⟩
  simp [hb]

theorem processPathItem_requiredSubset {spec : OpenAPISpec} {fuel : Nat} {p : String}
    (hall : ∀ pr ∈ schemasListOf spec, schemaWFB pr.2 = true) :
    ∀ {item : PathItem} {ts : List Tool},
    processPathItem spec fuel p item = .ok ts →
    (∀ e ∈ item, ∀ op : Operation, e.2 = some op →
      ∀ b, bodySchemaOfOp op = some b → schemaWFB b = true) →
    AllRequiredSubset ts := by
  intro item
  induction item with
  | nil =>
    intro ts h _
    unfold processPathItem at h
    injection h with h
    rw [← h]
    intro t ht
    simp at ht
  | cons e rest ih =>
    intro ts h hbody
    obtain ⟨method, opOpt⟩ := e
    have hbodyrest : ∀ e ∈ rest, ∀ op : Operation, e.2 = some op →
        ∀ b, bodySchemaOfOp op = some b → schemaWFB b = true :=
      fun e he => hbody e (List.mem_cons_of_mem _ he)
    by_cases hpar : method = "parameters"
    · subst hpar
      rw [show processPathItem spec fuel p (("parameters", opOpt) :: rest) =
          processPathItem spec fuel p rest from by simp only [processPathItem]; rfl] at h
      exact ih h hbodyrest
    · have hparB : (method == "parameters") = false := by simpa using hpar
      cases opOpt with
      | none =>
        rw [show processPathItem spec fuel p ((method, none) :: rest) =
            processPathItem spec fuel p rest from by
          simp only [processPathItem, hparB, Bool.false_eq_true, if_false]] at h
        exact ih h hbodyrest
      | some op =>
        by_cases hvm : jsToLower method ∈ validMethods
        · have hvmB : validMethods.contains (jsToLower method) = true := by simpa using hvm
          rw [show processPathItem spec fuel p ((method, some op) :: rest) =
              (do
                let tool ← processOperation spec fuel p method op
                let ts2 ← processPathItem spec fuel p rest
                pure (tool :: ts2)) from by
            simp only [processPathItem, hparB, Bool.false_eq_true, if_false, hvmB, if_true]] at h
          obtain ⟨tool, h1, h2⟩ := except_bind_ok.mp h
          obtain ⟨ts2, h3, h4⟩ := except_bind_ok.mp h2
          have h4' : tool :: ts2 = ts := by simpa [pure, Except.pure] using h4
          rw [← h4']
          intro t ht
          rcases List.mem_cons.mp ht with heq | hmem
          · subst heq
            exact processOperation_requiredSubset hall
              (hbody (method, some op) (List.mem_cons_self _ _) op rfl) h1
          · exact ih h3 hbodyrest t hmem
        · have hvmB : validMethods.contains (jsToLower method) = false := by simpa using hvm
          rw [show processPathItem spec fuel p ((method, some op) :: rest) =
              processPathItem spec fuel p rest from by
            simp only [processPathItem, hparB, Bool.false_eq_true, if_false, hvmB]] at h
          exact ih h hbodyrest

theorem processPaths_requiredSubset {spec : OpenAPISpec} {fuel : Nat}
    (hall : ∀ pr ∈ schemasListOf spec, schemaWFB pr.2 = true) :
    ∀ {l : List (String × Option PathItem)} {ts : List Tool},
    processPaths spec fuel l = .ok ts →
    (∀ pi ∈ l, ∀ item : PathItem, pi.2 = some item →
      ∀ e ∈ item, ∀ op : Operation, e.2 = some op →
      ∀ b, bodySchemaOfOp op = some b → schemaWFB b = true) →
    AllRequiredSubset ts := by
  intro l
  induction l with
  | nil =>
    intro ts h _
    unfold processPaths at h
    injection h with h
    rw [← h]
    intro t ht
    simp at ht
  | cons e rest ih =>
    intro ts h hbody
    obtain ⟨path, itemOpt⟩ := e
    have hbodyrest : ∀ pi ∈ rest, ∀ item : PathItem, pi.2 = some item →
        ∀ e ∈ item, ∀ op : Operation, e.2 = some op →
        ∀ b, bodySchemaOfOp op = some b → schemaWFB b = true :=
      fun pi hpi => hbody pi (List.mem_cons_of_mem _ hpi)
    cases itemOpt with
    | none =>
      rw [show processPaths spec fuel ((path, none) :: rest) = processPaths spec fuel rest
          from by simp only [processPaths]] at h
      exact ih h hbodyrest
    | some item =>
      rw [show processPaths spec fuel ((path, some item) :: rest) =
          (do
            let ts1 ← processPathItem spec fuel path item
            let ts2 ← processPaths spec fuel rest
            pure (ts1 ++ ts2)) from by simp only [processPaths]] at h
      obtain ⟨ts1, h1, h2⟩ := except_bind_ok.mp h
      obtain ⟨ts2, h3, h4⟩ := except_bind_ok.mp h2
      have h4' : ts1 ++ ts2 = ts := by simpa [pure, Except.pure] using h4
      rw [← h4']
      intro t ht
      rcases List.mem_append.mp ht with hmem | hmem
      · exact processPathItem_requiredSubset hall h1
          (hbody (path, some item) (List.mem_cons_self _ _) item rfl) t hmem
      · exact ih h3 hbodyrest t hmem

/-- Claim C3 (amended): for every document whose schema components and
request-body schemas are internally well-formed (each object's own
`required` list names only its own declared properties), every tool the
compile pass produces satisfies the invariant: each name in
`inputSchema.required` is a key of `inputSchema.properties`. (As stated
over all documents the claim is false: the code appends body/component
`required` lists without checking them against any property.) -/
theorem claim3_amended (spec : OpenAPISpec) (fuel : Nat) (res : GenResult)
    (hwf : specWFB spec = true) (h : generateTools spec fuel = .ok res) :
    AllRequiredSubset res.tools := by
  have hparts := (Bool.and_eq_true _ _).mp hwf
  have hcomp : ∀ pr ∈ schemasListOf spec, schemaWFB pr.2 = true :=
    fun pr hpr => List.all_eq_true.mp hparts.1 pr hpr
  have hbody : ∀ b ∈ bodySchemasOf spec, schemaWFB b = true :=
    fun b hb => List.all_eq_true.mp hparts.2 b hb
  unfold generateTools at h
  cases hp : spec.paths with
  | none =>
    rw [hp] at h
    injection h with h
    rw [← h]
    intro t ht
    simp at ht
  | some paths =>
    rw [hp] at h
    obtain ⟨tools, h1, h2⟩ := except_bind_ok.mp h
    simp only [pure, Except.pure] at h2
    injection h2 with h2
    rw [← h2]
    refine processPaths_requiredSubset hcomp h1 ?_
    intro pi hpi item hitem e he op hop b hb
    have hmem1 : (pi.1, some item) ∈ paths := by
      rw [← hitem]
      simpa using hpi
    have hmem2 : (e.1, some op) ∈ item := by
      rw [← hop]
      simpa using he
    exact hbody b (bodySchema_mem hp hmem1 hmem2 hb)

/-- Counterexample to C3 as stated: a body schema declaring property
`a` but requiring `zzz` produces a tool whose `required` contains
`zzz`, which is not among its `properties` keys. -/
theorem claim3_counterexample :
    ¬ RequiredSubset
      ((toolsOf (generateTools docC3bad 2)).headD defaultTool).inputSchema := by
  intro hsub
  exact absurd (hsub "zzz" (by decide)) (by decide)

/-- Witness for C3 (amended) on a concrete well-formed document. -/
theorem claim3_witness :
    AllRequiredSubset (toolsOf (generateTools docC3good 2)) := by
  have hok : (generateTools docC3good 2).isOk = true := rfl
  cases hres : generateTools docC3good 2 with
  | error e => rw [hres] at hok; simp [Except.isOk, Except.toBool] at hok
  | ok res =>
    show AllRequiredSubset res.tools
    exact claim3_amended docC3good 2 res (by decide) hres

/-! Claim C7: termination of schema resolution. -/


theorem hc_diverge (spec : OpenAPISpec) (S : List String) (h : headCycleB spec S = true) :
    ∀ fuel n, n ∈ S → generateSchemabyComponent spec fuel n = .error .outOfFuel := by
  intro fuel
  induction fuel with
  | zero => intro n _; rfl
  | succ k ih =>
    intro n hn
    have hchk : headCycleCheck spec S n = true := by
      have hall := (Bool.and_eq_true _ _).mp h |>.2
      exact List.all_eq_true.mp hall n hn
    cases hl : lookupSchema spec n with
    | none => simp [headCycleCheck, hl] at hchk
    | some comp =>
      cases hp : comp.properties with
      | none => simp [headCycleCheck, hl, hp] at hchk
      | some props =>
        cases props with
        | nil => simp [headCycleCheck, hl, hp] at hchk
        | cons hd tl =>
          obtain ⟨pname, ps⟩ := hd
          cases hr : ps.ref with
          | none => simp [headCycleCheck, hl, hp, hr] at hchk
          | some r =>
            have hmem : getComponentPath r ∈ S := by
              simp [headCycleCheck, hl, hp, hr] at hchk
              exact hchk
            simp [generateSchemabyComponent, hl, hp, List.foldlM, resolveProp, hr,
              ih _ hmem, Except.map, Except.bind]
            rfl

-- ===== C7 part (a): acyclic stabilization =====

theorem resolveProp_stable (spec : OpenAPISpec) (rank : String → Nat) (bound : Nat)
    (hIH : ∀ t, rank t < bound → ∃ v, v ≠ Except.error GenError.outOfFuel ∧
      ∀ fuel, rank t < fuel → generateSchemabyComponent spec fuel t = v)
    (q : String × JProp) (hq : propAcyclicOk rank bound q.2 = true)
    (acc : List (String × OutSchema)) :
    ∃ sv, sv ≠ (Except.error GenError.outOfFuel :
        Except GenError (List (String × OutSchema))) ∧
      ∀ g, bound ≤ g →
        resolveProp (fun nm => generateSchemabyComponent spec g nm) acc q = sv := by
  obtain ⟨hq1, hq2⟩ := (Bool.and_eq_true _ _).mp hq
  cases hr : q.2.ref with
  | some r =>
    have hlt : rank (getComponentPath r) < bound := by
      rw [hr] at hq1
      simpa [refEdgeOk] using hq1
    obtain ⟨v, hv, hstab⟩ := hIH _ hlt
    cases v with
    | error e =>
      refine ⟨Except.error e, by simpa using hv, ?_⟩
      intro g hg
      unfold resolveProp
      simp only [hr]
      rw [hstab g (by omega)]
      rfl
    | ok s =>
      refine ⟨Except.ok (objInsert acc q.1 s), by simp, ?_⟩
      intro g hg
      unfold resolveProp
      simp only [hr]
      rw [hstab g (by omega)]
      rfl
  | none =>
    by_cases hty : (q.2.type == some "array") = true
    · cases hit : q.2.items with
      | none =>
        refine ⟨Except.error GenError.missingItems, by simp, ?_⟩
        intro g hg
        unfold resolveProp resolveItems
        simp only [hr, hty, if_true, hit]
        rfl
      | some it =>
        cases hitr : it.ref with
        | none =>
          refine ⟨Except.ok (objInsert acc q.1
            (OutSchema.mk (some (jsOr q.2.type "string"))
              (some (jsOr q.2.description (q.1 ++ " property")))
              q.2.enum (some (OutSchema.mk it.type none none none none none)) none none)),
            by simp, ?_⟩
          intro g hg
          unfold resolveProp resolveItems
          simp only [hr, hty, if_true, hit, hitr]
          rfl
        | some r =>
          have hlt : rank (getComponentPath r) < bound := by
            rw [hit] at hq2
            simp only [hitr] at hq2
            simpa [refEdgeOk] using hq2
          obtain ⟨v, hv, hstab⟩ := hIH _ hlt
          cases v with
          | error e =>
            refine ⟨Except.error e, by simpa using hv, ?_⟩
            intro g hg
            unfold resolveProp resolveItems
            simp only [hr, hty, if_true, hit, hitr]
            rw [hstab g (by omega)]
            rfl
          | ok s =>
            refine ⟨Except.ok (objInsert acc q.1
              (OutSchema.mk (some (jsOr q.2.type "string"))
                (some (jsOr q.2.description (q.1 ++ " property")))
                q.2.enum (some s) none none)), by simp, ?_⟩
            intro g hg
            unfold resolveProp resolveItems
            simp only [hr, hty, if_true, hit, hitr]
            rw [hstab g (by omega)]
            rfl
    · have htyF : (q.2.type == some "array") = false := by simpa using hty
      refine ⟨Except.ok (objInsert acc q.1
        (OutSchema.mk (some (jsOr q.2.type "string"))
          (some (jsOr q.2.description (q.1 ++ " property")))
          q.2.enum none none none)), by simp, ?_⟩
      intro g hg
      unfold resolveProp resolveItems
      simp only [hr, htyF, Bool.false_eq_true, if_false]
      rfl

theorem fold_stable (spec : OpenAPISpec) (rank : String → Nat) (bound : Nat)
    (hIH : ∀ t, rank t < bound → ∃ v, v ≠ Except.error GenError.outOfFuel ∧
      ∀ fuel, rank t < fuel → generateSchemabyComponent spec fuel t = v) :
    ∀ (props : List (String × JProp)),
    (∀ q ∈ props, propAcyclicOk rank bound q.2 = true) →
    ∀ acc, ∃ w, w ≠ (Except.error GenError.outOfFuel :
        Except GenError (List (String × OutSchema))) ∧
      ∀ g, bound ≤ g →
        props.foldlM (resolveProp (fun nm => generateSchemabyComponent spec g nm)) acc = w := by
  intro props
  induction props with
  | nil =>
    intro _ acc
    refine ⟨Except.ok acc, by simp, ?_⟩
    intro g _
    simp [List.foldlM_nil, pure, Except.pure]
  | cons q rest ih =>
    intro hconds acc
    obtain ⟨sv, hsv, hstep⟩ := resolveProp_stable spec rank bound hIH q
      (hconds q (List.mem_cons_self _ _)) acc
    cases sv with
    | error e =>
      refine ⟨Except.error e, hsv, ?_⟩
      intro g hg
      simp only [List.foldlM_cons]
      rw [hstep g hg]
      rfl
    | ok acc2 =>
      obtain ⟨w, hw, hfold⟩ := ih (fun q2 hq2 => hconds q2 (List.mem_cons_of_mem _ hq2)) acc2
      refine ⟨w, hw, ?_⟩
      intro g hg
      simp only [List.foldlM_cons]
      rw [hstep g hg]
      calc (Except.ok acc2 >>= fun acc3 =>
            rest.foldlM (resolveProp (fun nm => generateSchemabyComponent spec g nm)) acc3)
          = rest.foldlM (resolveProp (fun nm => generateSchemabyComponent spec g nm)) acc2 := rfl
        _ = w := hfold g hg

theorem resolver_stable_body (spec : OpenAPISpec) (rank : String → Nat)
    (hacy : specAcyclicB spec rank = true) (n : String)
    (hIH : ∀ t, rank t < rank n → ∃ v, v ≠ Except.error GenError.outOfFuel ∧
      ∀ fuel, rank t < fuel → generateSchemabyComponent spec fuel t = v) :
    ∃ v, v ≠ Except.error GenError.outOfFuel ∧
      ∀ fuel, rank n < fuel → generateSchemabyComponent spec fuel n = v := by
  cases hl : lookupSchema spec n with
  | none =>
    refine ⟨Except.error (GenError.componentNotFound n), by simp, ?_⟩
    intro fuel hf
    cases fuel with
    | zero => omega
    | succ m => simp [generateSchemabyComponent, hl]
  | some comp =>
    cases hp : comp.properties with
    | none =>
      refine ⟨Except.error (GenError.missingProperties n), by simp, ?_⟩
      intro fuel hf
      cases fuel with
      | zero => omega
      | succ m => simp [generateSchemabyComponent, hl, hp]
    | some props =>
      have hmem : (n, comp) ∈ schemasListOf spec := lookupStr_mem hl
      have hconds : ∀ q ∈ props, propAcyclicOk rank (rank n) q.2 = true := by
        have hall := List.all_eq_true.mp hacy (n, comp) hmem
        intro q hq
        have := List.all_eq_true.mp hall q (by simpa [hp] using hq)
        exact this
      obtain ⟨w, hw, hfold⟩ := fold_stable spec rank (rank n) hIH props hconds []
      cases w with
      | error e =>
        have he : e ≠ GenError.outOfFuel := by
          intro hh
          exact hw (by rw [hh])
        refine ⟨Except.error e, by simpa using he, ?_⟩
        intro fuel hf
        cases fuel with
        | zero => omega
        | succ m =>
          unfold generateSchemabyComponent
          simp only [hl, hp]
          rw [hfold m (by omega)]
          rfl
      | ok l =>
        refine ⟨Except.ok (OutSchema.mk (some "object") none none none (some l)
          (some (comp.required.getD []))), by simp, ?_⟩
        intro fuel hf
        cases fuel with
        | zero => omega
        | succ m =>
          unfold generateSchemabyComponent
          simp only [hl, hp]
          rw [hfold m (by omega)]
          rfl

theorem resolver_stable_aux (spec : OpenAPISpec) (rank : String → Nat)
    (hacy : specAcyclicB spec rank = true) :
    ∀ k n, rank n ≤ k → ∃ v, v ≠ Except.error GenError.outOfFuel ∧
      ∀ fuel, rank n < fuel → generateSchemabyComponent spec fuel n = v := by
  intro k
  induction k with
  | zero =>
    intro n h0
    exact resolver_stable_body spec rank hacy n (fun t ht => absurd (by omega : rank t < 0)
      (Nat.not_lt_zero _))
  | succ k ih =>
    intro n hk
    exact resolver_stable_body spec rank hacy n (fun t ht => ih t (by omega))

/-- Claim C7 (amended): in the fuel model of the eagerly expanding,
guard-free resolver: (a) if a rank function witnesses acyclicity of the
component reference graph, resolution of every component terminates
(past `rank n + 1` fuel the result is a fixed value and never the
fuel-exhaustion marker); (b) a component inside a reference cycle that
resolution enters immediately (each member's first declared property
references back into the cycle, covering direct and transitive
self-reference) never terminates: every fuel bound is exhausted. (As
stated the claim is false: a self-referencing component whose earlier
property fails first — e.g. on a missing target — terminates with that
error instead.) -/
theorem claim7_amended :
    (∀ (spec : OpenAPISpec) (rank : String → Nat) (n : String),
      specAcyclicB spec rank = true → ResolutionTerminates spec n) ∧
    (∀ (spec : OpenAPISpec) (S : List String) (n : String),
      headCycleB spec S = true → n ∈ S → ¬ ResolutionTerminates spec n) := by
  constructor
  · intro spec rank n hacy
    obtain ⟨v, hv, hstab⟩ := resolver_stable_aux spec rank hacy (rank n) n le_rfl
    exact ⟨rank n + 1, v, hv, fun fuel hf => hstab fuel (by omega)⟩
  · rintro spec S n hc hn ⟨N, v, hv, hstab⟩
    have h1 := hc_diverge spec S hc N n hn
    have h2 := hstab N le_rfl
    rw [h1] at h2
    exact hv h2.symm

/-- Counterexample to C7 as stated: component `A` of `docCycBad`
directly references itself (its second property), yet resolution
terminates: from fuel 2 on it always returns the lookup error for the
earlier dangling property, never fuel exhaustion. -/
theorem claim7_counterexample :
    (match lookupSchema docCycBad "A" with
      | some comp => (comp.properties.getD []).any (fun q => q.2.ref == some "A")
      | none => false) = true ∧
    ResolutionTerminates docCycBad "A" := by
  refine ⟨by decide, 2, .error (.componentNotFound "Missing"), by simp, ?_⟩
  intro fuel hf
  obtain ⟨m, rfl⟩ : ∃ m, fuel = m + 2 := ⟨fuel - 2, by omega⟩
  rfl

/-- Witness for C7 (amended): the acyclic chain resolves stably, the
one-component head cycle never terminates. -/
theorem claim7_witness :
    ResolutionTerminates docAcyclic "Pet" ∧ ¬ ResolutionTerminates docCyc "A" :=
  ⟨claim7_amended.1 docAcyclic rankAcyclic "Pet" (by decide),
   claim7_amended.2 docCyc ["A"] "A" (by decide) (by decide)⟩

end McpGen
